import Mathlib

/-!
Verification of the community-deception rewiring environment
(`src/environment/graph_env.py`, class `GraphEnvironment`).

The environment state is embedded shallowly: the mutable Python object
becomes an explicit `EnvState` record, the undirected `networkx` graph
becomes a node list together with a finite set of oriented edge pairs
(membership tested in both orientations), and the external collaborators
(community detection, NMI, community similarity, graph similarity) become
function parameters of the operations that call them.  Python floats are
modelled as rationals, Python `int()` as truncation toward zero, fallible
operations (`assert`, `next(..., None)` followed by attribute access,
`list.remove` on a missing element, empty-sequence `max`/`random.choice`)
as `Option`-returning functions, and the wall-clock-seeded random choices
as an explicit stream of sample indices plus fuel for the retry loops.
-/

namespace GraphEnv

/-- Undirected weighted graph, as in `networkx.Graph`: a list of integer
nodes and a finite set of edge pairs stored in one orientation; all
edge weights in this code base are the constant 1, so the weight
attribute carries no information and is dropped. -/
structure Graph where
  nodes : List Nat
  edges : Finset (Nat × Nat)
deriving DecidableEq

/-- `networkx` `has_edge`: the edge is present in either orientation. -/
def Graph.hasEdge (g : Graph) (u v : Nat) : Prop :=
  (u, v) ∈ g.edges ∨ (v, u) ∈ g.edges

instance (g : Graph) (u v : Nat) : Decidable (g.hasEdge u v) := by
  unfold Graph.hasEdge; infer_instance

/-- `networkx` `add_edge(u, v, weight=1)`: missing endpoints are added as
nodes; if the edge already exists (in either orientation) the edge set is
unchanged (only the weight attribute is rewritten, always to 1). -/
def Graph.addEdge (g : Graph) (u v : Nat) : Graph :=
  { nodes :=
      (if u ∈ g.nodes then g.nodes else g.nodes ++ [u]).append
        (if v ∈ (if u ∈ g.nodes then g.nodes else g.nodes ++ [u]) then []
         else [v]),
    edges := if g.hasEdge u v then g.edges else insert (u, v) g.edges }

/-- `networkx` `remove_edge(u, v)`: removes the undirected edge whatever
orientation it is stored in (the Python call raises when the edge is
absent; every call site removes an edge recorded in the REMOVE action set,
which only holds existing edges, so the total model erases both
orientations). -/
def Graph.removeEdge (g : Graph) (u v : Nat) : Graph :=
  { g with edges := (g.edges.erase (u, v)).erase (v, u) }

/-- The `possible_actions` dictionary `{"ADD": set(), "REMOVE": set()}`. -/
structure PossibleActions where
  ADD : Finset (Nat × Nat)
  REMOVE : Finset (Nat × Nat)
deriving DecidableEq

/-- A community structure: the `communities` field of a `cdlib`
`NodeClustering`, a list of node lists. -/
abbrev CommunityStructure := List (List Nat)

/-- `GraphEnvironment` mutable state (the fields touched by the episode
operations; configuration hyperparameters included).  `lambda_metric` and
`alpha_metric` are `None`-checked by assertions before use in Python; here
they are plain rationals, the assertions being configuration checks that
do not affect the arithmetic once set. -/
structure EnvState where
  envName : String
  graph : Graph
  originalGraph : Graph
  oldGraph : Option Graph
  beta : ℚ
  tau : ℚ
  preferredCommunitySize : ℚ
  lambdaMetric : ℚ
  alphaMetric : ℚ
  oldPenaltyValue : ℚ
  originalCommunityStructure : CommunityStructure
  oldCommunityStructure : CommunityStructure
  newCommunityStructure : CommunityStructure
  communityTarget : List Nat
  nodeTarget : Nat
  edgeBudget : ℤ
  usedEdgeBudget : ℤ
  stopEpisode : Bool
  rewards : ℚ
  oldRewards : ℚ
  possibleActions : PossibleActions
deriving DecidableEq

/-- One iteration of the loop body of `get_possible_actions`. -/
def possibleActionsStep (g : Graph) (community : List Nat) (u : Nat)
    (acc : PossibleActions) (v : Nat) : PossibleActions :=
  if u = v then acc
  else if u ∈ community ∧ v ∈ community then
    if g.hasEdge u v then
      if (v, u) ∉ acc.REMOVE then
        { acc with REMOVE := insert (u, v) acc.REMOVE }
      else acc
    else acc
  else if (u ∈ community ∧ v ∉ community) ∨ (u ∉ community ∧ v ∈ community) then
    if ¬ g.hasEdge u v then
      if (v, u) ∉ acc.ADD then
        { acc with ADD := insert (u, v) acc.ADD }
      else acc
    else acc
  else acc

/-- `get_possible_actions`: for the target node `u` and every other node
`v` of the graph, collect removable intra-community edges and addable
boundary non-edges, each pair stored once. -/
def getPossibleActions (g : Graph) (community : List Nat) (u : Nat) :
    PossibleActions :=
  g.nodes.foldl (possibleActionsStep g community u) ⟨∅, ∅⟩

/-- `apply_action`: form the pair (target node, destination) and its
reverse, and test them in order against ADD then REMOVE; on a hit, mutate
the graph, consume the entry, and report 1 unit of budget; otherwise 0. -/
def applyAction (s : EnvState) (action : Nat) : ℤ × EnvState :=
  let a : Nat × Nat := (s.nodeTarget, action)
  let ar : Nat × Nat := (action, s.nodeTarget)
  if a ∈ s.possibleActions.ADD then
    (1, { s with graph := s.graph.addEdge a.1 a.2,
                 possibleActions :=
                   { s.possibleActions with
                       ADD := s.possibleActions.ADD.erase a } })
  else if ar ∈ s.possibleActions.ADD then
    (1, { s with graph := s.graph.addEdge ar.1 ar.2,
                 possibleActions :=
                   { s.possibleActions with
                       ADD := s.possibleActions.ADD.erase ar } })
  else if a ∈ s.possibleActions.REMOVE then
    (1, { s with graph := s.graph.removeEdge a.1 a.2,
                 possibleActions :=
                   { s.possibleActions with
                       REMOVE := s.possibleActions.REMOVE.erase a } })
  else if ar ∈ s.possibleActions.REMOVE then
    (1, { s with graph := s.graph.removeEdge ar.1 ar.2,
                 possibleActions :=
                   { s.possibleActions with
                       REMOVE := s.possibleActions.REMOVE.erase ar } })
  else (0, s)

/-- Result tuple of `step`: `(graph, rewards, stop_episode, done)` plus
the environment state after the call (the mutated `self`). -/
structure StepResult where
  graph : Graph
  reward : ℚ
  stop : Bool
  done : Bool
  state : EnvState
deriving DecidableEq

/-- Result tuple of `act`: `(graph, stop_episode)` plus the state after
the call. -/
structure ActResult where
  graph : Graph
  stop : Bool
  state : EnvState
deriving DecidableEq

/-- `get_penalty`: delta-tracked weighted sum of community distance
(1 − NMI between the current-step and previous-step structures) and graph
distance between the working graph and the previous-step graph snapshot.
`none` when no previous-step graph snapshot exists (`self.old_graph` is
`None`; in Python the similarity function would then be applied to
`None`).  Returns the penalty together with the state holding the updated
`old_penalty_value`. -/
def getPenalty (nmi : CommunityStructure → CommunityStructure → ℚ)
    (graphSim : Graph → Graph → ℚ) (s : EnvState) : Option (ℚ × EnvState) :=
  match s.oldGraph with
  | none => none
  | some og =>
    let communityDistance :=
      1 - nmi s.newCommunityStructure s.oldCommunityStructure
    let graphDistance := graphSim s.graph og
    let penalty :=
      s.alphaMetric * communityDistance
        + (1 - s.alphaMetric) * graphDistance
        - s.oldPenaltyValue
    some (penalty, { s with oldPenaltyValue := penalty })

/-- `get_reward`: find the community of the current-step structure that
contains the target node (`none` models the fatal
`assert new_community_target is not None`), compute the penalty, then
dispatch on isolation (community of size 1) or on the community
similarity against the episode's target community, both taken modulo the
target node.  The `new_community_target_copy.remove(node_target)` call
cannot raise — the `find?` predicate guarantees membership — but
`community_target_copy.remove(node_target)` raises `ValueError` when the
target node is not in the target community (a state reachable through an
unchecked explicit node assignment), so that path is `none`.  Returns
`(reward, done)` and the updated state. -/
def getReward (nmi : CommunityStructure → CommunityStructure → ℚ)
    (graphSim : Graph → Graph → ℚ)
    (commSim : List Nat → List Nat → ℚ) (s : EnvState) :
    Option (ℚ × Bool × EnvState) :=
  match s.newCommunityStructure.find? (fun c => s.nodeTarget ∈ c) with
  | none => none
  | some newCommunityTarget =>
    match getPenalty nmi graphSim s with
    | none => none
    | some (penalty, s1) =>
      if newCommunityTarget.length = 1 then
        some (1 - s.lambdaMetric * penalty, true, s1)
      else if s.nodeTarget ∈ s.communityTarget then
        let communitySimilarity :=
          commSim (newCommunityTarget.erase s.nodeTarget)
            (s.communityTarget.erase s.nodeTarget)
        if communitySimilarity ≤ s.tau then
          some (1 - s.lambdaMetric * penalty, true, s1)
        else
          some (0 - s.lambdaMetric * penalty, false, s1)
      else none

/-- `step`: snapshot the working graph, apply the action; on zero
consumed budget report reward −1 and return unchanged; otherwise rerun
community detection, compute the reward, update the stop flag and the
used budget, and advance the previous-step community structure. -/
def step (nmi : CommunityStructure → CommunityStructure → ℚ)
    (graphSim : Graph → Graph → ℚ)
    (commSim : List Nat → List Nat → ℚ)
    (detection : Graph → CommunityStructure)
    (s : EnvState) (action : Nat) : Option StepResult :=
  let s0 := { s with oldGraph := some s.graph }
  let applied := applyAction s0 action
  let budgetConsumed := applied.1
  let s1 := applied.2
  if budgetConsumed = 0 then
    let s2 := { s1 with rewards := -1 }
    some ⟨s2.graph, s2.rewards, s2.stopEpisode, false, s2⟩
  else
    let s2 := { s1 with newCommunityStructure := detection s1.graph }
    match getReward nmi graphSim commSim s2 with
    | none => none
    | some (reward, done, s3) =>
      let s4 := { s3 with rewards := reward }
      let s5 := if done then { s4 with stopEpisode := true } else s4
      let s6 := { s5 with usedEdgeBudget := s5.usedEdgeBudget + budgetConsumed }
      let s7 :=
        if s6.edgeBudget - s6.usedEdgeBudget < (1 : ℤ) then
          { s6 with stopEpisode := true }
        else s6
      let s8 := { s7 with oldCommunityStructure := s7.newCommunityStructure }
      some ⟨s8.graph, s8.rewards, s8.stopEpisode, done, s8⟩

/-- `act`: evaluation variant of `step` without reward bookkeeping.  The
deception test is guarded by `budget_consumed == -1`; inside the guard,
`next(..., None)` returning `None` followed by `.remove`, or a
`list.remove` of a missing element, would raise — both are modelled as
`none`. -/
def act (detection : Graph → CommunityStructure)
    (commSim : List Nat → List Nat → ℚ)
    (s : EnvState) (action : Nat) : Option ActResult :=
  let applied := applyAction s action
  let budgetConsumed := applied.1
  let s1 := applied.2
  let afterGuard : Option EnvState :=
    if budgetConsumed = -1 then
      let s2 := { s1 with newCommunityStructure := detection s1.graph }
      match s2.newCommunityStructure.find? (fun c => s2.nodeTarget ∈ c) with
      | none => none
      | some newCommunityTarget =>
        if s2.nodeTarget ∈ newCommunityTarget ∧
            s2.nodeTarget ∈ s2.communityTarget then
          let communitySimilarity :=
            commSim (newCommunityTarget.erase s2.nodeTarget)
              (s2.communityTarget.erase s2.nodeTarget)
          if communitySimilarity ≤ s2.tau then
            some { s2 with stopEpisode := true }
          else some s2
        else none
    else some s1
  match afterGuard with
  | none => none
  | some s2 =>
    let s3 := { s2 with usedEdgeBudget := s2.usedEdgeBudget + budgetConsumed }
    let s4 :=
      if s3.edgeBudget - s3.usedEdgeBudget < (1 : ℤ) then
        { s3 with stopEpisode := true }
      else s3
    some ⟨s4.graph, s4.stopEpisode, s4⟩

/-- `reset(graph_reset)`: clear the budget, flags and rewards, optionally
restore the working graph from the original, reset the previous-step
structures and penalty, and recompute the possible-action sets.  Returns
the working graph together with the state after the call. -/
def reset (s : EnvState) (graphReset : Bool) : Graph × EnvState :=
  let s1 := { s with usedEdgeBudget := 0, stopEpisode := false,
                     rewards := 0, oldRewards := 0 }
  let s2 := if graphReset then { s1 with graph := s1.originalGraph } else s1
  let s3 := { s2 with oldGraph := none, oldPenaltyValue := 0,
                      oldCommunityStructure := s2.originalCommunityStructure }
  let s4 := { s3 with possibleActions :=
                getPossibleActions s3.graph s3.communityTarget s3.nodeTarget }
  (s4.graph, s4)

/-- Python `int()` on a rational: truncation toward zero. -/
def pyInt (q : ℚ) : ℤ :=
  if 0 ≤ q then ⌊q⌋ else ⌈q⌉

/-- `get_edge_budget`: density-scaled budget, with a `+1` calibration
bump for the two named reference graphs `pow` and `kar`. -/
def getEdgeBudget (envName : String) (numEdges numNodes : Nat) (beta : ℚ) :
    ℤ :=
  if envName = "pow" ∨ envName = "kar" then
    pyInt (((numEdges : ℚ) / (numNodes : ℚ) + 1) * beta)
  else
    pyInt ((numEdges : ℚ) / (numNodes : ℚ) * beta)

/-- `random.choice(l)`: the sampled element is modelled by an explicit
sample index `r` reduced modulo the length; the empty-list case (a Python
`IndexError`) is `none`. -/
def randChoice {α : Type} (l : List α) (r : Nat) : Option α :=
  l.get? (r % l.length)

/-- Retry loop of `change_target_node` with no explicit node: resample
from the target community until the sample differs from the previous
target node.  `rs` is the stream of sample indices, `i` the position in
the stream; the fuel bounds the loop, which Python does not (a singleton
community equal to the old node spins forever), so exhausted fuel is
`none`. -/
def pickNewNodeAux (community : List Nat) (old : Nat) (rs : Nat → Nat) :
    Nat → Nat → Option Nat
  | 0, _ => none
  | fuel + 1, i =>
    match randChoice community (rs i) with
    | none => none
    | some n =>
      if n = old then pickNewNodeAux community old rs fuel (i + 1)
      else some n

/-- `change_target_node(node_target)`: with an explicit node, assign it
directly (no membership check); otherwise resample from the target
community until the sample differs from the previous target node. -/
def changeTargetNode (s : EnvState) (nodeTarget : Option Nat)
    (rs : Nat → Nat) (fuel : Nat) : Option EnvState :=
  match nodeTarget with
  | none =>
    match pickNewNodeAux s.communityTarget s.nodeTarget rs fuel 0 with
    | none => none
    | some n => some { s with nodeTarget := n }
  | some n => some { s with nodeTarget := n }

/-- Retry loop of `random_community`: sample a community from the
original structure until it has more than one node and differs from the
old target community, unless fewer than two communities exist. -/
def randomCommunityAux (comms : CommunityStructure) (old : List Nat)
    (rs : Nat → Nat) : Nat → Nat → Option (List Nat)
  | 0, _ => none
  | fuel + 1, i =>
    match randChoice comms (rs i) with
    | none => none
    | some c =>
      if (1 < c.length ∧ c ≠ old) ∨ comms.length < 2 then some c
      else randomCommunityAux comms old rs fuel (i + 1)

/-- `random_community` (community change method 1). -/
def randomCommunity (s : EnvState) (rs : Nat → Nat) (fuel : Nat) :
    Option EnvState :=
  match randomCommunityAux s.originalCommunityStructure s.communityTarget
      rs fuel 0 with
  | none => none
  | some c => some { s with communityTarget := c }

/-- Python `min(l, key=key)` on a nonempty list `x :: l`: the first
element attaining the minimal key (later elements replace the running
minimum only when strictly smaller). -/
def minByNE {α : Type} (key : α → ℤ) (x : α) : List α → α
  | [] => x
  | y :: ys =>
    let m := minByNE key y ys
    if key m < key x then m else x

/-- `fixed_community` (community change method 2): pick the community
whose size is closest to `ceil(preferred_community_size * max size)`,
via `min(lens, key=|len - preferred|)` followed by `lens.index`; the
empty structure (where Python `max` raises) is `none`.
`int(np.ceil(x))` equals `⌈x⌉` since the ceiling is already integral. -/
def fixedCommunity (comms : CommunityStructure)
    (preferredCommunitySize : ℚ) : Option (List Nat) :=
  match comms with
  | [] => none
  | c0 :: rest =>
    let lens := (c0 :: rest).map List.length
    let maxLen := lens.foldl Nat.max 0
    let preferredSize : ℤ := ⌈(maxLen : ℚ) * preferredCommunitySize⌉
    let key : Nat → ℤ := fun n => |(n : ℤ) - preferredSize|
    let closest := minByNE key c0.length (rest.map List.length)
    (c0 :: rest).get? (lens.indexOf closest)

/-- Modelled from the spec: the spec's tie-break for the fixed-size
policy — "the first such community encountered in the size-sorted order"
— applied to the same closest-size criterion; used to compare the spec's
words with `fixedCommunity`, which scans communities in their original
order. -/
def fixedCommunitySizeSorted (comms : CommunityStructure)
    (preferredCommunitySize : ℚ) : Option (List Nat) :=
  match comms with
  | [] => none
  | c0 :: rest =>
    let lens := (c0 :: rest).map List.length
    let maxLen := lens.foldl Nat.max 0
    let preferredSize : ℤ := ⌈(maxLen : ℚ) * preferredCommunitySize⌉
    let key : List Nat → ℤ := fun c => |(c.length : ℤ) - preferredSize|
    match (c0 :: rest).insertionSort
        (fun a b => a.length ≤ b.length) with
    | [] => none
    | d0 :: ds => some (minByNE key d0 ds)

/-- The preferred size computed inside `fixed_community`:
`int(np.ceil(max_community_size * preferred_community_size))`. -/
def preferredSize (comms : CommunityStructure)
    (preferredCommunitySize : ℚ) : ℤ :=
  ⌈(((comms.map List.length).foldl Nat.max 0 : ℕ) : ℚ) *
    preferredCommunitySize⌉

/-- `distribution_community` (community change method 3): with fewer
than 10 communities sample uniformly; otherwise sample among communities
whose sizes lie strictly between a minimum threshold (2 when the mean
size is below `minLen`, else `minLen`) and both `0.8 * max size` and
5000.  An empty filtered list (Python `random.choice` on an empty
sequence raises) is `none`. -/
def distributionCommunity (comms : CommunityStructure) (r : Nat)
    (minLen : ℚ) : Option (List Nat) :=
  if comms.length < 10 then randChoice comms r
  else
    let lens := comms.map List.length
    let avgNodes : ℚ := (lens.sum : ℚ) / (lens.length : ℚ)
    let maxNodes := lens.foldl Nat.max 0
    let maxLen : ℚ := (8 / 10 : ℚ) * (maxNodes : ℚ)
    let minLen2 : ℚ := if avgNodes < minLen then 2 else minLen
    let filtered := comms.filter
      (fun c => decide (minLen2 < (c.length : ℚ) ∧ (c.length : ℚ) < maxLen ∧
        c.length < 5000))
    randChoice filtered r

/-- The three values of `HyperParams.COMMUNITY_CHANGE_METHOD`. -/
inductive CommunityChangeMethod
  | random
  | fixed
  | distribution
deriving DecidableEq

/-- `change_target_community(community, node_target)`: take the explicit
community verbatim when given, otherwise run the configured selection
policy; then always run `change_target_node(node_target)`.  `rsC` and
`rsN` are the sample-index streams of the community and node phases. -/
def changeTargetCommunity (method : CommunityChangeMethod) (s : EnvState)
    (community : Option (List Nat)) (nodeTarget : Option Nat)
    (rsC rsN : Nat → Nat) (fuel : Nat) : Option EnvState :=
  let afterCommunity : Option EnvState :=
    match community with
    | some c => some { s with communityTarget := c }
    | none =>
      match method with
      | .random => randomCommunity s rsC fuel
      | .fixed =>
        match fixedCommunity s.originalCommunityStructure
            s.preferredCommunitySize with
        | none => none
        | some c => some { s with communityTarget := c }
      | .distribution =>
        match distributionCommunity s.originalCommunityStructure (rsC 0)
            10 with
        | none => none
        | some c => some { s with communityTarget := c }
  match afterCommunity with
  | none => none
  | some s1 => changeTargetNode s1 nodeTarget rsN fuel

/-- Condition under which the loop of `get_possible_actions` records the
destination `v` as a REMOVE candidate. -/
def removeCond (g : Graph) (community : List Nat) (u v : Nat) : Prop :=
  u ∈ community ∧ v ∈ community ∧ g.hasEdge u v

/-- Condition under which the loop of `get_possible_actions` records the
destination `v` as an ADD candidate. -/
def addCond (g : Graph) (community : List Nat) (u v : Nat) : Prop :=
  ((u ∈ community ∧ v ∉ community) ∨ (u ∉ community ∧ v ∈ community)) ∧
    ¬ g.hasEdge u v

instance (g : Graph) (community : List Nat) (u v : Nat) :
    Decidable (removeCond g community u v) := by
  unfold removeCond; infer_instance

instance (g : Graph) (community : List Nat) (u v : Nat) :
    Decidable (addCond g community u v) := by
  unfold addCond; infer_instance

/-- Example graph used to instantiate the universally quantified
theorems: nodes 0..3, a triangle on 0,1,2 and an isolated node 3. -/
def exampleGraph : Graph :=
  ⟨[0, 1, 2, 3], {(0, 1), (1, 2), (0, 2)}⟩

/-- Example environment state on `exampleGraph`, target community
`[0,1,2]`, target node 0. -/
def exampleState : EnvState :=
  { envName := "lfr"
    graph := exampleGraph
    originalGraph := exampleGraph
    oldGraph := none
    beta := 1
    tau := 0
    preferredCommunitySize := 1
    lambdaMetric := 1
    alphaMetric := 1
    oldPenaltyValue := 0
    originalCommunityStructure := [[0, 1, 2], [3]]
    oldCommunityStructure := [[0, 1, 2], [3]]
    newCommunityStructure := [[0, 1, 2], [3]]
    communityTarget := [0, 1, 2]
    nodeTarget := 0
    edgeBudget := 5
    usedEdgeBudget := 0
    stopEpisode := false
    rewards := 0
    oldRewards := 0
    possibleActions := getPossibleActions exampleGraph [0, 1, 2] 0 }

/-- Constant similarity and detection oracles used by the witnesses. -/
def constNMI : CommunityStructure → CommunityStructure → ℚ := fun _ _ => 1

def constGraphSim : Graph → Graph → ℚ := fun _ _ => 0

def constCommSim : List Nat → List Nat → ℚ := fun _ _ => 0

def constDetection : Graph → CommunityStructure := fun _ => [[0], [1, 2], [3]]

lemma possibleActionsStep_ADD (g : Graph) (community : List Nat)
    (u v : Nat) (acc : PossibleActions)
    (hacc : ∀ p ∈ acc.ADD, p.1 = u) (p : Nat × Nat) :
    p ∈ (possibleActionsStep g community u acc v).ADD ↔
      p ∈ acc.ADD ∨ (v ≠ u ∧ addCond g community u v ∧ p = (u, v)) := by
  unfold possibleActionsStep addCond
  split_ifs with h1 h2 h3 h4 h5 h6 h7
  · simp [h1]
  · constructor
    · exact fun h => Or.inl h
    · rintro (h | ⟨_, ⟨hone, _⟩, _⟩)
      · exact h
      · rcases hone with ⟨_, hv⟩ | ⟨hu, _⟩
        · exact absurd h2.2 hv
        · exact absurd h2.1 hu
  · constructor
    · exact fun h => Or.inl h
    · rintro (h | ⟨_, ⟨hone, _⟩, _⟩)
      · exact h
      · rcases hone with ⟨_, hv⟩ | ⟨hu, _⟩
        · exact absurd h2.2 hv
        · exact absurd h2.1 hu
  · constructor
    · exact fun h => Or.inl h
    · rintro (h | ⟨_, ⟨hone, _⟩, _⟩)
      · exact h
      · rcases hone with ⟨_, hv⟩ | ⟨hu, _⟩
        · exact absurd h2.2 hv
        · exact absurd h2.1 hu
  · constructor
    · exact fun h => Or.inl h
    · rintro (h | ⟨_, ⟨_, hne⟩, _⟩)
      · exact h
      · exact absurd h6 hne
  · exact absurd (hacc _ h7) fun hfst =>
      h1 ((show v = u from hfst).symm)
  · constructor
    · intro hmem
      rcases Finset.mem_insert.mp hmem with rfl | h
      · exact Or.inr ⟨fun hvu => h1 hvu.symm, ⟨h5, h6⟩, rfl⟩
      · exact Or.inl h
    · rintro (h | ⟨_, _, rfl⟩)
      · exact Finset.mem_insert.mpr (Or.inr h)
      · exact Finset.mem_insert.mpr (Or.inl rfl)
  · constructor
    · exact fun h => Or.inl h
    · rintro (h | ⟨_, ⟨hone, _⟩, _⟩)
      · exact h
      · exact absurd hone h5

lemma possibleActionsStep_REMOVE (g : Graph) (community : List Nat)
    (u v : Nat) (acc : PossibleActions)
    (hacc : ∀ p ∈ acc.REMOVE, p.1 = u) (p : Nat × Nat) :
    p ∈ (possibleActionsStep g community u acc v).REMOVE ↔
      p ∈ acc.REMOVE ∨ (v ≠ u ∧ removeCond g community u v ∧ p = (u, v)) := by
  unfold possibleActionsStep removeCond
  split_ifs with h1 h2 h3 h4 h5 h6 h7
  · simp [h1]
  · exact absurd (hacc _ h4) fun hfst =>
      h1 ((show v = u from hfst).symm)
  · constructor
    · intro hmem
      rcases Finset.mem_insert.mp hmem with rfl | h
      · exact Or.inr ⟨fun hvu => h1 hvu.symm, ⟨h2.1, h2.2, h3⟩, rfl⟩
      · exact Or.inl h
    · rintro (h | ⟨_, _, rfl⟩)
      · exact Finset.mem_insert.mpr (Or.inr h)
      · exact Finset.mem_insert.mpr (Or.inl rfl)
  · constructor
    · exact fun h => Or.inl h
    · rintro (h | ⟨_, ⟨_, _, he⟩, _⟩)
      · exact h
      · exact absurd he h3
  · constructor
    · exact fun h => Or.inl h
    · rintro (h | ⟨_, ⟨hu, hv, _⟩, _⟩)
      · exact h
      · exact absurd ⟨hu, hv⟩ h2
  · constructor
    · exact fun h => Or.inl h
    · rintro (h | ⟨_, ⟨hu, hv, _⟩, _⟩)
      · exact h
      · exact absurd ⟨hu, hv⟩ h2
  · constructor
    · exact fun h => Or.inl h
    · rintro (h | ⟨_, ⟨hu, hv, _⟩, _⟩)
      · exact h
      · exact absurd ⟨hu, hv⟩ h2
  · constructor
    · exact fun h => Or.inl h
    · rintro (h | ⟨_, ⟨hu, hv, _⟩, _⟩)
      · exact h
      · exact absurd ⟨hu, hv⟩ h2

lemma foldl_possibleActions (g : Graph) (community : List Nat) (u : Nat) :
    ∀ (l : List Nat) (acc : PossibleActions),
      (∀ p ∈ acc.ADD, p.1 = u) → (∀ p ∈ acc.REMOVE, p.1 = u) →
      ∀ p : Nat × Nat,
        (p ∈ (List.foldl (possibleActionsStep g community u) acc l).ADD ↔
          p ∈ acc.ADD ∨
            ∃ v ∈ l, v ≠ u ∧ addCond g community u v ∧ p = (u, v)) ∧
        (p ∈ (List.foldl (possibleActionsStep g community u) acc l).REMOVE ↔
          p ∈ acc.REMOVE ∨
            ∃ v ∈ l, v ≠ u ∧ removeCond g community u v ∧ p = (u, v))
  | [], acc, _, _, p => by simp
  | v :: l, acc, hA, hR, p => by
    have hA' : ∀ q ∈ (possibleActionsStep g community u acc v).ADD,
        q.1 = u := by
      intro q hq
      rcases (possibleActionsStep_ADD g community u v acc hA q).mp hq with
        h | ⟨_, _, rfl⟩
      · exact hA q h
      · rfl
    have hR' : ∀ q ∈ (possibleActionsStep g community u acc v).REMOVE,
        q.1 = u := by
      intro q hq
      rcases (possibleActionsStep_REMOVE g community u v acc hR q).mp hq with
        h | ⟨_, _, rfl⟩
      · exact hR q h
      · rfl
    have IH := foldl_possibleActions g community u l
      (possibleActionsStep g community u acc v) hA' hR' p
    simp only [List.foldl_cons]
    constructor
    · rw [IH.1, possibleActionsStep_ADD g community u v acc hA p]
      simp only [List.mem_cons]
      constructor
      · rintro ((h | h) | ⟨w, hw, hrest⟩)
        · exact Or.inl h
        · exact Or.inr ⟨v, Or.inl rfl, h⟩
        · exact Or.inr ⟨w, Or.inr hw, hrest⟩
      · rintro (h | ⟨w, (rfl | hw), hrest⟩)
        · exact Or.inl (Or.inl h)
        · exact Or.inl (Or.inr hrest)
        · exact Or.inr ⟨w, hw, hrest⟩
    · rw [IH.2, possibleActionsStep_REMOVE g community u v acc hR p]
      simp only [List.mem_cons]
      constructor
      · rintro ((h | h) | ⟨w, hw, hrest⟩)
        · exact Or.inl h
        · exact Or.inr ⟨v, Or.inl rfl, h⟩
        · exact Or.inr ⟨w, Or.inr hw, hrest⟩
      · rintro (h | ⟨w, (rfl | hw), hrest⟩)
        · exact Or.inl (Or.inl h)
        · exact Or.inl (Or.inr hrest)
        · exact Or.inr ⟨w, hw, hrest⟩

lemma mem_getPossibleActions_ADD (g : Graph) (community : List Nat)
    (u : Nat) (p : Nat × Nat) :
    p ∈ (getPossibleActions g community u).ADD ↔
      ∃ v ∈ g.nodes, v ≠ u ∧ addCond g community u v ∧ p = (u, v) := by
  have h := foldl_possibleActions g community u g.nodes ⟨∅, ∅⟩
    (by intro q hq; simp at hq) (by intro q hq; simp at hq) p
  simpa [getPossibleActions] using h.1

lemma mem_getPossibleActions_REMOVE (g : Graph) (community : List Nat)
    (u : Nat) (p : Nat × Nat) :
    p ∈ (getPossibleActions g community u).REMOVE ↔
      ∃ v ∈ g.nodes, v ≠ u ∧ removeCond g community u v ∧ p = (u, v) := by
  have h := foldl_possibleActions g community u g.nodes ⟨∅, ∅⟩
    (by intro q hq; simp at hq) (by intro q hq; simp at hq) p
  simpa [getPossibleActions] using h.2

/-- Shape of every recorded action pair: first component is the target
node and second component is a distinct node. -/
lemma getPossibleActions_shape (g : Graph) (community : List Nat)
    (u : Nat) (p : Nat × Nat)
    (hp : p ∈ (getPossibleActions g community u).ADD ∨
      p ∈ (getPossibleActions g community u).REMOVE) :
    p.1 = u ∧ p.2 ≠ u := by
  rcases hp with h | h
  · rcases (mem_getPossibleActions_ADD g community u p).mp h with
      ⟨v, _, hvu, _, rfl⟩
    exact ⟨rfl, hvu⟩
  · rcases (mem_getPossibleActions_REMOVE g community u p).mp h with
      ⟨v, _, hvu, _, rfl⟩
    exact ⟨rfl, hvu⟩

/-- C4: for every graph and target, `get_possible_actions` returns two
disjoint sets with no self-pair, each unordered pair stored in a single
orientation; a pair of the target node `u` and another node `v` of the
graph is in REMOVE iff both endpoints are in the target community and
the edge exists, and in ADD iff exactly one endpoint is in the target
community and the edge does not exist. -/
theorem getPossibleActions_partition (g : Graph) (community : List Nat)
    (u : Nat) :
    Disjoint (getPossibleActions g community u).ADD
      (getPossibleActions g community u).REMOVE ∧
    (∀ p ∈ (getPossibleActions g community u).ADD, p.1 ≠ p.2) ∧
    (∀ p ∈ (getPossibleActions g community u).REMOVE, p.1 ≠ p.2) ∧
    (∀ p : Nat × Nat,
      p ∈ (getPossibleActions g community u).ADD ∨
        p ∈ (getPossibleActions g community u).REMOVE →
      (p.2, p.1) ∉ (getPossibleActions g community u).ADD ∧
        (p.2, p.1) ∉ (getPossibleActions g community u).REMOVE) ∧
    (∀ v ∈ g.nodes, v ≠ u →
      (((u, v) ∈ (getPossibleActions g community u).REMOVE ↔
          u ∈ community ∧ v ∈ community ∧ g.hasEdge u v) ∧
        ((u, v) ∈ (getPossibleActions g community u).ADD ↔
          ((u ∈ community ∧ v ∉ community) ∨
              (u ∉ community ∧ v ∈ community)) ∧ ¬ g.hasEdge u v))) := by
  refine ⟨?_, ?_, ?_, ?_, ?_⟩
  · rw [Finset.disjoint_left]
    intro p hpA hpR
    rcases (mem_getPossibleActions_ADD g community u p).mp hpA with
      ⟨v, _, _, ⟨_, hne⟩, rfl⟩
    rcases (mem_getPossibleActions_REMOVE g community u (u, v)).mp hpR with
      ⟨w, _, _, ⟨_, _, he⟩, heq⟩
    cases (Prod.mk.injEq u v u w).mp heq |>.2
    exact hne he
  · intro p hp
    obtain ⟨h1, h2⟩ := getPossibleActions_shape g community u p (Or.inl hp)
    rw [h1]
    exact fun h => h2 h.symm
  · intro p hp
    obtain ⟨h1, h2⟩ := getPossibleActions_shape g community u p (Or.inr hp)
    rw [h1]
    exact fun h => h2 h.symm
  · intro p hp
    obtain ⟨h1, h2⟩ := getPossibleActions_shape g community u p hp
    constructor
    · intro hswap
      exact h2 (getPossibleActions_shape g community u (p.2, p.1)
        (Or.inl hswap)).1
    · intro hswap
      exact h2 (getPossibleActions_shape g community u (p.2, p.1)
        (Or.inr hswap)).1
  · intro v hv hvu
    constructor
    · rw [mem_getPossibleActions_REMOVE]
      constructor
      · rintro ⟨w, _, _, hcond, heq⟩
        cases (Prod.mk.injEq u v u w).mp heq |>.2
        exact hcond
      · intro hcond
        exact ⟨v, hv, hvu, hcond, rfl⟩
    · rw [mem_getPossibleActions_ADD]
      constructor
      · rintro ⟨w, _, _, hcond, heq⟩
        cases (Prod.mk.injEq u v u w).mp heq |>.2
        exact hcond
      · intro hcond
        exact ⟨v, hv, hvu, hcond, rfl⟩

/-- Witness for C4 at the example graph: node 1 is an intra-community
neighbour of the target (REMOVE candidate), node 3 an outside
non-neighbour (ADD candidate). -/
theorem getPossibleActions_partition_witness :
    (0, 1) ∈ (getPossibleActions exampleGraph [0, 1, 2] 0).REMOVE ∧
      (0, 3) ∈ (getPossibleActions exampleGraph [0, 1, 2] 0).ADD :=
  ⟨((getPossibleActions_partition exampleGraph [0, 1, 2] 0).2.2.2.2 1
      (by decide) (by decide)).1.mpr (by decide),
    ((getPossibleActions_partition exampleGraph [0, 1, 2] 0).2.2.2.2 3
      (by decide) (by decide)).2.mpr (by decide)⟩

/-- C2: `apply_action` checks the forward pair against ADD, then the
reversed pair against ADD, then the forward pair against REMOVE, then the
reversed pair against REMOVE; on the first match it performs the
corresponding edge mutation, deletes exactly that pair from its set and
returns 1; when nothing matches it returns 0 and changes nothing.  The
result sets are subsets of the originals, and — for action sets of the
shape `get_possible_actions` produces (every pair starts at the target
node with a distinct second component, and the two sets are disjoint) —
after a successful application the pair is gone from both sets in both
orientations and a second `apply_action` on the same destination returns
0 and removes nothing. -/
theorem applyAction_priority_one_shot (s : EnvState) (action : Nat) :
    ((s.nodeTarget, action) ∈ s.possibleActions.ADD →
      applyAction s action =
        (1, { s with graph := s.graph.addEdge s.nodeTarget action,
                     possibleActions :=
                       { s.possibleActions with
                           ADD := s.possibleActions.ADD.erase
                             (s.nodeTarget, action) } })) ∧
    ((s.nodeTarget, action) ∉ s.possibleActions.ADD →
      (action, s.nodeTarget) ∈ s.possibleActions.ADD →
      applyAction s action =
        (1, { s with graph := s.graph.addEdge action s.nodeTarget,
                     possibleActions :=
                       { s.possibleActions with
                           ADD := s.possibleActions.ADD.erase
                             (action, s.nodeTarget) } })) ∧
    ((s.nodeTarget, action) ∉ s.possibleActions.ADD →
      (action, s.nodeTarget) ∉ s.possibleActions.ADD →
      (s.nodeTarget, action) ∈ s.possibleActions.REMOVE →
      applyAction s action =
        (1, { s with graph := s.graph.removeEdge s.nodeTarget action,
                     possibleActions :=
                       { s.possibleActions with
                           REMOVE := s.possibleActions.REMOVE.erase
                             (s.nodeTarget, action) } })) ∧
    ((s.nodeTarget, action) ∉ s.possibleActions.ADD →
      (action, s.nodeTarget) ∉ s.possibleActions.ADD →
      (s.nodeTarget, action) ∉ s.possibleActions.REMOVE →
      (action, s.nodeTarget) ∈ s.possibleActions.REMOVE →
      applyAction s action =
        (1, { s with graph := s.graph.removeEdge action s.nodeTarget,
                     possibleActions :=
                       { s.possibleActions with
                           REMOVE := s.possibleActions.REMOVE.erase
                             (action, s.nodeTarget) } })) ∧
    ((s.nodeTarget, action) ∉ s.possibleActions.ADD →
      (action, s.nodeTarget) ∉ s.possibleActions.ADD →
      (s.nodeTarget, action) ∉ s.possibleActions.REMOVE →
      (action, s.nodeTarget) ∉ s.possibleActions.REMOVE →
      applyAction s action = (0, s)) ∧
    ((applyAction s action).2.possibleActions.ADD ⊆
        s.possibleActions.ADD ∧
      (applyAction s action).2.possibleActions.REMOVE ⊆
        s.possibleActions.REMOVE) ∧
    ((∀ p ∈ s.possibleActions.ADD,
        p.1 = s.nodeTarget ∧ p.2 ≠ s.nodeTarget) →
      (∀ p ∈ s.possibleActions.REMOVE,
        p.1 = s.nodeTarget ∧ p.2 ≠ s.nodeTarget) →
      (∀ p ∈ s.possibleActions.ADD, p ∉ s.possibleActions.REMOVE) →
      (applyAction s action).1 = 1 →
      (((s.nodeTarget, action) ∉
          (applyAction s action).2.possibleActions.ADD ∧
        (action, s.nodeTarget) ∉
          (applyAction s action).2.possibleActions.ADD ∧
        (s.nodeTarget, action) ∉
          (applyAction s action).2.possibleActions.REMOVE ∧
        (action, s.nodeTarget) ∉
          (applyAction s action).2.possibleActions.REMOVE) ∧
        applyAction (applyAction s action).2 action =
          (0, (applyAction s action).2))) := by
  refine ⟨?_, ?_, ?_, ?_, ?_, ?_, ?_⟩
  · intro h
    simp [applyAction, h]
  · intro h1 h2
    simp [applyAction, h1, h2]
  · intro h1 h2 h3
    simp [applyAction, h1, h2, h3]
  · intro h1 h2 h3 h4
    simp [applyAction, h1, h2, h3, h4]
  · intro h1 h2 h3 h4
    simp [applyAction, h1, h2, h3, h4]
  · by_cases h1 : (s.nodeTarget, action) ∈ s.possibleActions.ADD
    · simp only [applyAction, h1, if_pos]
      exact ⟨Finset.erase_subset _ _, subset_rfl⟩
    · by_cases h2 : (action, s.nodeTarget) ∈ s.possibleActions.ADD
      · simp only [applyAction, h1, h2, if_neg, if_pos]
        exact ⟨Finset.erase_subset _ _, subset_rfl⟩
      · by_cases h3 : (s.nodeTarget, action) ∈ s.possibleActions.REMOVE
        · simp only [applyAction, h1, h2, h3, if_neg, if_pos]
          exact ⟨subset_rfl, Finset.erase_subset _ _⟩
        · by_cases h4 : (action, s.nodeTarget) ∈ s.possibleActions.REMOVE
          · simp only [applyAction, h1, h2, h3, h4, if_neg, if_pos]
            exact ⟨subset_rfl, Finset.erase_subset _ _⟩
          · simp only [applyAction, h1, h2, h3, h4, if_neg]
            exact ⟨subset_rfl, subset_rfl⟩
  · intro hshA hshR hdisj hone
    have hrA : (action, s.nodeTarget) ∉ s.possibleActions.ADD := by
      intro h
      exact (hshA _ h).2 rfl
    have hrR : (action, s.nodeTarget) ∉ s.possibleActions.REMOVE := by
      intro h
      exact (hshR _ h).2 rfl
    by_cases hA : (s.nodeTarget, action) ∈ s.possibleActions.ADD
    · have hR : (s.nodeTarget, action) ∉ s.possibleActions.REMOVE :=
        hdisj _ hA
      have e : applyAction s action =
          (1, { s with graph := s.graph.addEdge s.nodeTarget action,
                       possibleActions :=
                         { s.possibleActions with
                             ADD := s.possibleActions.ADD.erase
                               (s.nodeTarget, action) } }) := by
        simp [applyAction, hA]
      rw [e]
      have k1 : (s.nodeTarget, action) ∉
          s.possibleActions.ADD.erase (s.nodeTarget, action) :=
        Finset.not_mem_erase _ _
      have k2 : (action, s.nodeTarget) ∉
          s.possibleActions.ADD.erase (s.nodeTarget, action) := fun h =>
        hrA (Finset.mem_of_mem_erase h)
      refine ⟨⟨k1, k2, hR, hrR⟩, ?_⟩
      simp [applyAction, k1, k2, hR, hrR]
    · by_cases hRf : (s.nodeTarget, action) ∈ s.possibleActions.REMOVE
      · have e : applyAction s action =
            (1, { s with graph := s.graph.removeEdge s.nodeTarget action,
                         possibleActions :=
                           { s.possibleActions with
                               REMOVE := s.possibleActions.REMOVE.erase
                                 (s.nodeTarget, action) } }) := by
          simp [applyAction, hA, hrA, hRf]
        rw [e]
        have k1 : (s.nodeTarget, action) ∉
            s.possibleActions.REMOVE.erase (s.nodeTarget, action) :=
          Finset.not_mem_erase _ _
        have k2 : (action, s.nodeTarget) ∉
            s.possibleActions.REMOVE.erase (s.nodeTarget, action) := fun h =>
          hrR (Finset.mem_of_mem_erase h)
        refine ⟨⟨hA, hrA, k1, k2⟩, ?_⟩
        simp [applyAction, hA, hrA, k1, k2]
      · have e : applyAction s action = (0, s) := by
          simp [applyAction, hA, hrA, hRf, hrR]
        rw [e] at hone
        simp at hone

/-- Witness for C2 at the example state: applying destination 3 consumes
the ADD pair (0,3); the second application consumes nothing and leaves
the state unchanged. -/
theorem applyAction_priority_one_shot_witness :
    applyAction exampleState 3 =
      (1, { exampleState with
              graph := exampleState.graph.addEdge exampleState.nodeTarget 3,
              possibleActions :=
                { exampleState.possibleActions with
                    ADD := exampleState.possibleActions.ADD.erase
                      (exampleState.nodeTarget, 3) } }) ∧
      applyAction (applyAction exampleState 3).2 3 =
        (0, (applyAction exampleState 3).2) :=
  ⟨(applyAction_priority_one_shot exampleState 3).1 (by decide),
    ((applyAction_priority_one_shot exampleState 3).2.2.2.2.2.2
      (by decide) (by decide) (by decide) (by decide)).2⟩

/-- `apply_action` only touches the working graph and the
possible-action sets; every other field survives. -/
lemma applyAction_preserves (s : EnvState) (action : Nat) :
    (applyAction s action).2.stopEpisode = s.stopEpisode ∧
    (applyAction s action).2.usedEdgeBudget = s.usedEdgeBudget ∧
    (applyAction s action).2.edgeBudget = s.edgeBudget ∧
    (applyAction s action).2.newCommunityStructure =
      s.newCommunityStructure ∧
    (applyAction s action).2.oldCommunityStructure =
      s.oldCommunityStructure ∧
    (applyAction s action).2.nodeTarget = s.nodeTarget ∧
    (applyAction s action).2.oldGraph = s.oldGraph ∧
    (applyAction s action).2.rewards = s.rewards := by
  by_cases h1 : (s.nodeTarget, action) ∈ s.possibleActions.ADD
  · simp [applyAction, h1]
  by_cases h2 : (action, s.nodeTarget) ∈ s.possibleActions.ADD
  · simp [applyAction, h1, h2]
  by_cases h3 : (s.nodeTarget, action) ∈ s.possibleActions.REMOVE
  · simp [applyAction, h1, h2, h3]
  by_cases h4 : (action, s.nodeTarget) ∈ s.possibleActions.REMOVE
  · simp [applyAction, h1, h2, h3, h4]
  · simp [applyAction, h1, h2, h3, h4]

/-- `apply_action` consumes either 0 or 1 units of budget, never −1. -/
lemma applyAction_consumed (s : EnvState) (action : Nat) :
    (applyAction s action).1 = 0 ∨ (applyAction s action).1 = 1 := by
  by_cases h1 : (s.nodeTarget, action) ∈ s.possibleActions.ADD
  · simp [applyAction, h1]
  by_cases h2 : (action, s.nodeTarget) ∈ s.possibleActions.ADD
  · simp [applyAction, h1, h2]
  by_cases h3 : (s.nodeTarget, action) ∈ s.possibleActions.REMOVE
  · simp [applyAction, h1, h2, h3]
  by_cases h4 : (action, s.nodeTarget) ∈ s.possibleActions.REMOVE
  · simp [applyAction, h1, h2, h3, h4]
  · simp [applyAction, h1, h2, h3, h4]

/-- C1: when neither orientation of (target node, destination) is in any
possible-action set — so `apply_action` consumes zero budget — `step`
returns `(graph, -1, stop flag, false)` immediately; the working graph,
stop flag, used budget, possible-action sets, previous-step community
structure and current-step community structure (no recomputation) are
all unchanged, only the reward and the pre-action graph snapshot being
written. -/
theorem step_noop_when_no_action (nmi : CommunityStructure →
      CommunityStructure → ℚ)
    (graphSim : Graph → Graph → ℚ) (commSim : List Nat → List Nat → ℚ)
    (detection : Graph → CommunityStructure) (s : EnvState) (action : Nat)
    (hfA : (s.nodeTarget, action) ∉ s.possibleActions.ADD)
    (hrA : (action, s.nodeTarget) ∉ s.possibleActions.ADD)
    (hfR : (s.nodeTarget, action) ∉ s.possibleActions.REMOVE)
    (hrR : (action, s.nodeTarget) ∉ s.possibleActions.REMOVE) :
    ∃ s1, step nmi graphSim commSim detection s action =
        some ⟨s.graph, -1, s.stopEpisode, false, s1⟩ ∧
      s1.graph = s.graph ∧
      s1.stopEpisode = s.stopEpisode ∧
      s1.usedEdgeBudget = s.usedEdgeBudget ∧
      s1.possibleActions = s.possibleActions ∧
      s1.oldCommunityStructure = s.oldCommunityStructure ∧
      s1.newCommunityStructure = s.newCommunityStructure ∧
      s1.rewards = -1 := by
  refine ⟨{ s with oldGraph := some s.graph, rewards := -1 }, ?_,
    rfl, rfl, rfl, rfl, rfl, rfl, rfl⟩
  have h0 : applyAction { s with oldGraph := some s.graph } action =
      (0, { s with oldGraph := some s.graph }) := by
    simp [applyAction, hfA, hrA, hfR, hrR]
  simp [step, h0]

/-- Witness for C1 at the example state: destination 5 matches no
possible action. -/
theorem step_noop_when_no_action_witness :
    ∃ s1, step constNMI constGraphSim constCommSim constDetection
        exampleState 5 =
        some ⟨exampleState.graph, -1, exampleState.stopEpisode, false, s1⟩ ∧
      s1.graph = exampleState.graph ∧
      s1.stopEpisode = exampleState.stopEpisode ∧
      s1.usedEdgeBudget = exampleState.usedEdgeBudget ∧
      s1.possibleActions = exampleState.possibleActions ∧
      s1.oldCommunityStructure = exampleState.oldCommunityStructure ∧
      s1.newCommunityStructure = exampleState.newCommunityStructure ∧
      s1.rewards = -1 :=
  step_noop_when_no_action constNMI constGraphSim constCommSim
    constDetection exampleState 5 (by decide) (by decide) (by decide)
    (by decide)

/-- C6: `apply_action` returns only 0 or 1, so the `budget_consumed ==
-1` branch of `act` is unreachable: `act` always returns, adds exactly
the consumed budget to the used budget, sets the stop flag exactly when
it was already set or the remaining budget drops below 1, and never
recomputes the community structure or runs the similarity test. -/
theorem act_guard_unreachable (detection : Graph → CommunityStructure)
    (commSim : List Nat → List Nat → ℚ) (s : EnvState) (action : Nat) :
    ((applyAction s action).1 = 0 ∨ (applyAction s action).1 = 1) ∧
    ∃ r, act detection commSim s action = some r ∧
      r.state.usedEdgeBudget =
        s.usedEdgeBudget + (applyAction s action).1 ∧
      r.stop = (s.stopEpisode ||
        decide (s.edgeBudget -
          (s.usedEdgeBudget + (applyAction s action).1) < 1)) ∧
      r.state.stopEpisode = r.stop ∧
      r.state.newCommunityStructure = s.newCommunityStructure ∧
      r.graph = (applyAction s action).2.graph ∧
      r.state.possibleActions =
        (applyAction s action).2.possibleActions := by
  refine ⟨applyAction_consumed s action, ?_⟩
  obtain ⟨hstop, hused, hbudget, hnew, -⟩ := applyAction_preserves s action
  have h01 := applyAction_consumed s action
  rcases hap : applyAction s action with ⟨c, s1⟩
  rw [hap] at hstop hused hbudget hnew h01
  dsimp only at hstop hused hbudget hnew h01
  have hc : ¬ c = -1 := by
    rcases h01 with h | h <;> rw [h] <;> decide
  unfold act
  rw [hap]
  dsimp only
  rw [if_neg hc]
  dsimp only
  by_cases hb : s.edgeBudget - (s.usedEdgeBudget + c) < 1
  · have hb1 : s1.edgeBudget - (s1.usedEdgeBudget + c) < 1 := by
      rw [hused, hbudget]; exact hb
    rw [if_pos hb1]
    refine ⟨_, rfl, ?_, ?_, ?_, ?_, ?_, ?_⟩
    · dsimp only; rw [hused]
    · simp [hb]
    · rfl
    · exact hnew
    · rfl
    · rfl
  · have hb1 : ¬ (s1.edgeBudget - (s1.usedEdgeBudget + c) < 1) := by
      rw [hused, hbudget]; exact hb
    rw [if_neg hb1]
    refine ⟨_, rfl, ?_, ?_, ?_, ?_, ?_, ?_⟩
    · dsimp only; rw [hused]
    · simp [hb, hstop]
    · rfl
    · exact hnew
    · rfl
    · rfl

/-- C5: `get_penalty` returns
`alpha * (1 - NMI(new, old)) + (1 - alpha) * graphSim(graph, old graph)`
minus the previously stored penalty value, stores that result as the new
previous penalty value, and when NMI is 1 the community-distance
component contributes 0. -/
theorem getPenalty_delta (nmi : CommunityStructure →
      CommunityStructure → ℚ)
    (graphSim : Graph → Graph → ℚ) (s : EnvState) (og : Graph)
    (hold : s.oldGraph = some og) :
    getPenalty nmi graphSim s =
      some (s.alphaMetric *
            (1 - nmi s.newCommunityStructure s.oldCommunityStructure) +
          (1 - s.alphaMetric) * graphSim s.graph og - s.oldPenaltyValue,
        { s with oldPenaltyValue :=
            s.alphaMetric *
                (1 - nmi s.newCommunityStructure s.oldCommunityStructure) +
              (1 - s.alphaMetric) * graphSim s.graph og -
              s.oldPenaltyValue }) ∧
    (nmi s.newCommunityStructure s.oldCommunityStructure = 1 →
      s.alphaMetric *
            (1 - nmi s.newCommunityStructure s.oldCommunityStructure) +
          (1 - s.alphaMetric) * graphSim s.graph og - s.oldPenaltyValue =
        (1 - s.alphaMetric) * graphSim s.graph og - s.oldPenaltyValue) := by
  constructor
  · unfold getPenalty
    rw [hold]
  · intro h1
    rw [h1]
    ring

/-- Witness for C5 at the example state (previous graph snapshot set,
identical partitions under the constant NMI oracle): the penalty is 0
and is stored. -/
theorem getPenalty_delta_witness :
    getPenalty constNMI constGraphSim
        { exampleState with oldGraph := some exampleGraph } =
      some (0, { exampleState with
                   oldGraph := some exampleGraph,
                   oldPenaltyValue := 0 }) := by
  have h := (getPenalty_delta constNMI constGraphSim
    { exampleState with oldGraph := some exampleGraph } exampleGraph rfl).1
  rw [h]
  simp only [Option.some.injEq, Prod.mk.injEq]
  constructor
  · simp [constNMI, constGraphSim, exampleState]
  · simp [constNMI, constGraphSim, exampleState]

/-- C3: `get_reward` finds the community of the current-step structure
containing the target node (absence is fatal, i.e. `none`); penalty in
hand, a singleton community yields `(1 - lambda * penalty, done)`;
otherwise, when the target node is in the target community (else
`community_target_copy.remove` raises, i.e. `none`), the similarity of
that community and the episode's target community, both minus the target
node, decides between `(1 - lambda * penalty, done)` (similarity ≤ tau)
and `(-lambda * penalty, not done)`.  Hence `done = true` implies the
community has size 1 or that similarity is at most tau. -/
theorem getReward_cases (nmi : CommunityStructure →
      CommunityStructure → ℚ)
    (graphSim : Graph → Graph → ℚ) (commSim : List Nat → List Nat → ℚ)
    (s : EnvState) (og : Graph) (hold : s.oldGraph = some og) :
    (s.newCommunityStructure.find? (fun c => s.nodeTarget ∈ c) = none →
      getReward nmi graphSim commSim s = none) ∧
    (∀ c, s.newCommunityStructure.find? (fun c0 => s.nodeTarget ∈ c0) =
        some c →
      ∀ P : ℚ, P = s.alphaMetric *
            (1 - nmi s.newCommunityStructure s.oldCommunityStructure) +
          (1 - s.alphaMetric) * graphSim s.graph og -
          s.oldPenaltyValue →
      ((c.length = 1 →
          getReward nmi graphSim commSim s =
            some (1 - s.lambdaMetric * P, true,
              { s with oldPenaltyValue := P })) ∧
        (c.length ≠ 1 →
          s.nodeTarget ∈ s.communityTarget →
          commSim (c.erase s.nodeTarget)
              (s.communityTarget.erase s.nodeTarget) ≤ s.tau →
          getReward nmi graphSim commSim s =
            some (1 - s.lambdaMetric * P, true,
              { s with oldPenaltyValue := P })) ∧
        (c.length ≠ 1 →
          s.nodeTarget ∈ s.communityTarget →
          ¬ (commSim (c.erase s.nodeTarget)
              (s.communityTarget.erase s.nodeTarget) ≤ s.tau) →
          getReward nmi graphSim commSim s =
            some (0 - s.lambdaMetric * P, false,
              { s with oldPenaltyValue := P })) ∧
        (c.length ≠ 1 →
          s.nodeTarget ∉ s.communityTarget →
          getReward nmi graphSim commSim s = none) ∧
        (∀ r d s1, getReward nmi graphSim commSim s = some (r, d, s1) →
          d = true →
          c.length = 1 ∨
            commSim (c.erase s.nodeTarget)
              (s.communityTarget.erase s.nodeTarget) ≤ s.tau))) := by
  constructor
  · intro hnone
    unfold getReward
    rw [hnone]
  · intro c hfind P hP
    have hpen : getPenalty nmi graphSim s =
        some (P, { s with oldPenaltyValue := P }) := by
      unfold getPenalty
      rw [hold, hP]
    refine ⟨?_, ?_, ?_, ?_, ?_⟩
    · intro hlen
      unfold getReward
      rw [hfind, hpen]
      dsimp only
      rw [if_pos hlen]
    · intro hlen hmem hsim
      unfold getReward
      rw [hfind, hpen]
      dsimp only
      rw [if_neg hlen, if_pos hmem, if_pos hsim]
    · intro hlen hmem hsim
      unfold getReward
      rw [hfind, hpen]
      dsimp only
      rw [if_neg hlen, if_pos hmem, if_neg hsim]
    · intro hlen hmem
      unfold getReward
      rw [hfind, hpen]
      dsimp only
      rw [if_neg hlen, if_neg hmem]
    · intro r d s1 heq hd
      unfold getReward at heq
      rw [hfind, hpen] at heq
      dsimp only at heq
      by_cases hlen : c.length = 1
      · exact Or.inl hlen
      · rw [if_neg hlen] at heq
        by_cases hmem : s.nodeTarget ∈ s.communityTarget
        · rw [if_pos hmem] at heq
          by_cases hsim : commSim (c.erase s.nodeTarget)
              (s.communityTarget.erase s.nodeTarget) ≤ s.tau
          · exact Or.inr hsim
          · rw [if_neg hsim] at heq
            rw [hd] at heq
            simp at heq
        · rw [if_neg hmem] at heq
          cases heq

/-- Witness for C3: in the example state with the snapshot set, the
post-action structure `[[0],[1,2],[3]]` isolates the target node
(singleton branch), and `[[0,1],[2,3]]` exercises the similarity branch
with the target node in its target community; both end the episode with
reward `1 - lambda * penalty`. -/
theorem getReward_cases_witness :
    getReward constNMI constGraphSim constCommSim
        { exampleState with
            oldGraph := some exampleGraph,
            newCommunityStructure := [[0], [1, 2], [3]] } =
      some (1, true,
        { exampleState with
            oldGraph := some exampleGraph,
            newCommunityStructure := [[0], [1, 2], [3]],
            oldPenaltyValue := 0 }) ∧
    getReward constNMI constGraphSim constCommSim
        { exampleState with
            oldGraph := some exampleGraph,
            newCommunityStructure := [[0, 1], [2, 3]] } =
      some (1, true,
        { exampleState with
            oldGraph := some exampleGraph,
            newCommunityStructure := [[0, 1], [2, 3]],
            oldPenaltyValue := 0 }) := by
  constructor
  · have h := ((getReward_cases constNMI constGraphSim constCommSim
      { exampleState with
          oldGraph := some exampleGraph,
          newCommunityStructure := [[0], [1, 2], [3]] } exampleGraph
      rfl).2 [0] rfl 0 (by simp [constNMI, constGraphSim, exampleState])).1
      rfl
    rw [h]
    simp [exampleState]
  · have h := ((getReward_cases constNMI constGraphSim constCommSim
      { exampleState with
          oldGraph := some exampleGraph,
          newCommunityStructure := [[0, 1], [2, 3]] } exampleGraph
      rfl).2 [0, 1] rfl 0
      (by simp [constNMI, constGraphSim, exampleState])).2.1
      (by decide) (by decide)
      (by simp [constCommSim, exampleState])
    rw [h]
    simp [exampleState]

/-- The state returned by `get_reward` is the input state with only the
stored penalty value updated. -/
lemma getReward_state (nmi : CommunityStructure → CommunityStructure → ℚ)
    (graphSim : Graph → Graph → ℚ) (commSim : List Nat → List Nat → ℚ)
    (s : EnvState) (r : ℚ) (d : Bool) (s1 : EnvState)
    (h : getReward nmi graphSim commSim s = some (r, d, s1)) :
    ∃ p, s1 = { s with oldPenaltyValue := p } := by
  unfold getReward at h
  rcases hfind : s.newCommunityStructure.find? (fun c => s.nodeTarget ∈ c)
    with _ | c
  · rw [hfind] at h
    cases h
  · rw [hfind] at h
    dsimp only at h
    rcases hpen : getPenalty nmi graphSim s with _ | ⟨p, s2⟩
    · rw [hpen] at h
      cases h
    · have hs2 : s2 = { s with oldPenaltyValue := p } := by
        unfold getPenalty at hpen
        rcases hog : s.oldGraph with _ | og
        · rw [hog] at hpen
          cases hpen
        · rw [hog] at hpen
          dsimp only at hpen
          simp only [Option.some.injEq, Prod.mk.injEq] at hpen
          obtain ⟨h1, h2⟩ := hpen
          rw [← h2, h1]
      rw [hpen] at h
      dsimp only at h
      refine ⟨p, ?_⟩
      split_ifs at h <;>
        simp only [Option.some.injEq, Prod.mk.injEq] at h <;>
        rw [← h.2.2, hs2]

/-- C7: `reset` zeroes the used budget, stop flag and both reward
fields, clears the snapshot and stored penalty, restores the
previous-step community structure to the original one, recomputes the
possible-action sets for the current target (on the original graph when
the graph-reset flag is set, else on the working graph), and returns the
working graph — so `reset(full)` reproduces the original graph exactly;
and `step` never decreases `used_edge_budget`. -/
theorem reset_clears_and_budget_monotone (s : EnvState) :
    (∀ b : Bool,
      (reset s b).2.usedEdgeBudget = 0 ∧
      (reset s b).2.stopEpisode = false ∧
      (reset s b).2.rewards = 0 ∧
      (reset s b).2.oldRewards = 0 ∧
      (reset s b).2.oldPenaltyValue = 0 ∧
      (reset s b).2.oldGraph = none ∧
      (reset s b).2.oldCommunityStructure =
        s.originalCommunityStructure ∧
      (reset s b).2.graph = (if b then s.originalGraph else s.graph) ∧
      (reset s b).2.possibleActions =
        getPossibleActions (if b then s.originalGraph else s.graph)
          s.communityTarget s.nodeTarget ∧
      (reset s b).1 = (reset s b).2.graph) ∧
    (reset s true).2.graph = s.originalGraph ∧
    (∀ (nmi : CommunityStructure → CommunityStructure → ℚ)
      (graphSim : Graph → Graph → ℚ)
      (commSim : List Nat → List Nat → ℚ)
      (detection : Graph → CommunityStructure) (action : Nat)
      (r : StepResult),
      step nmi graphSim commSim detection s action = some r →
      s.usedEdgeBudget ≤ r.state.usedEdgeBudget) := by
  refine ⟨?_, ?_, ?_⟩
  · intro b
    cases b <;> simp [reset]
  · simp [reset]
  · intro nmi graphSim commSim detection action r hstep
    unfold step at hstep
    dsimp only at hstep
    rcases hap : applyAction { s with oldGraph := some s.graph } action
      with ⟨c, s1⟩
    have h01 := applyAction_consumed { s with oldGraph := some s.graph }
      action
    obtain ⟨-, hused, -⟩ :=
      applyAction_preserves { s with oldGraph := some s.graph } action
    rw [hap] at hstep h01 hused
    dsimp only at hstep h01 hused
    by_cases hc : c = 0
    · rw [if_pos hc] at hstep
      obtain rfl := Option.some.inj hstep
      dsimp only
      rw [hused]
    · rw [if_neg hc] at hstep
      have hc1 : c = 1 := by
        rcases h01 with h | h
        · exact absurd h hc
        · exact h
      rcases hrew : getReward nmi graphSim commSim
          { s1 with newCommunityStructure := detection s1.graph }
        with _ | ⟨rew, done, s3⟩
      · rw [hrew] at hstep
        cases hstep
      · rw [hrew] at hstep
        dsimp only at hstep
        obtain ⟨p, rfl⟩ := getReward_state nmi graphSim commSim
          { s1 with newCommunityStructure := detection s1.graph }
          rew done s3 hrew
        split_ifs at hstep <;>
          · obtain rfl := Option.some.inj hstep
            dsimp only
            rw [hused, hc1]
            omega

/-- Witness for C7: a concrete `step` call on the example state (with a
destination matching no action, so the call returns) never decreases the
used budget. -/
theorem reset_clears_and_budget_monotone_witness :
    exampleState.usedEdgeBudget ≤
      ((step constNMI constGraphSim constCommSim constDetection
          exampleState 5).getD
        ⟨exampleState.graph, 0, false, false, exampleState⟩).state.usedEdgeBudget :=
  (reset_clears_and_budget_monotone exampleState).2.2 constNMI
    constGraphSim constCommSim constDetection 5 _ (by decide)

/-- C10: for non-negative `beta` (the constructor asserts
`0 ≤ beta ≤ 100`), `get_edge_budget` is `floor((edges/nodes + 1) * beta)`
for the two named reference graphs `pow` and `kar` and
`floor((edges/nodes) * beta)` otherwise; in particular a non-special
graph with 20 nodes, 40 edges and `beta = 10` gets budget 20. -/
theorem getEdgeBudget_floor (envName : String) (numEdges numNodes : Nat)
    (beta : ℚ) (hbeta : 0 ≤ beta) :
    getEdgeBudget envName numEdges numNodes beta =
      (if envName = "pow" ∨ envName = "kar" then
        ⌊((numEdges : ℚ) / (numNodes : ℚ) + 1) * beta⌋
      else ⌊(numEdges : ℚ) / (numNodes : ℚ) * beta⌋) ∧
    getEdgeBudget "abc" 40 20 10 = 20 := by
  constructor
  · have hq1 : 0 ≤ ((numEdges : ℚ) / (numNodes : ℚ) + 1) * beta :=
      mul_nonneg (by positivity) hbeta
    have hq2 : 0 ≤ (numEdges : ℚ) / (numNodes : ℚ) * beta :=
      mul_nonneg (by positivity) hbeta
    unfold getEdgeBudget pyInt
    split_ifs <;> rfl
  · have habc : ¬ (("abc" : String) = "pow" ∨ ("abc" : String) = "kar") := by
      decide
    unfold getEdgeBudget pyInt
    rw [if_neg habc]
    have hval : ((40 : Nat) : ℚ) / ((20 : Nat) : ℚ) * 10 = 20 := by
      norm_num
    rw [hval]
    rw [if_pos (by norm_num)]
    norm_num

/-- Witness for C10: the special-cased `kar` graph with 20 nodes, 40
edges and `beta = 10` follows the `+1` branch of the floor formula. -/
theorem getEdgeBudget_floor_witness :
    getEdgeBudget "kar" 40 20 10 =
      (if ("kar" : String) = "pow" ∨ ("kar" : String) = "kar" then
        ⌊(((40 : Nat) : ℚ) / ((20 : Nat) : ℚ) + 1) * 10⌋
      else ⌊((40 : Nat) : ℚ) / ((20 : Nat) : ℚ) * 10⌋) :=
  (getEdgeBudget_floor "kar" 40 20 10 (by norm_num)).1

/-- `random.choice` only returns elements of its list. -/
lemma randChoice_mem {α : Type} (l : List α) (r : Nat) (x : α)
    (h : randChoice l r = some x) : x ∈ l := by
  unfold randChoice at h
  exact List.get?_mem h

/-- The resampling loop of `change_target_node` only returns members of
the community it samples from. -/
lemma pickNewNodeAux_mem (community : List Nat) (old : Nat)
    (rs : Nat → Nat) :
    ∀ (fuel i n : Nat),
      pickNewNodeAux community old rs fuel i = some n → n ∈ community
  | 0, _, _, h => by cases h
  | fuel + 1, i, n, h => by
    unfold pickNewNodeAux at h
    rcases hr : randChoice community (rs i) with _ | m
    · rw [hr] at h
      cases h
    · rw [hr] at h
      dsimp only at h
      by_cases hm : m = old
      · rw [if_pos hm] at h
        exact pickNewNodeAux_mem community old rs fuel (i + 1) n h
      · rw [if_neg hm] at h
        cases h
        exact randChoice_mem community (rs i) n hr

/-- `change_target_node` keeps the target community; a policy-selected
node is a member of it, an explicit node is assigned as given with no
membership check. -/
lemma changeTargetNode_invariant (s : EnvState) (nodeArg : Option Nat)
    (rs : Nat → Nat) (fuel : Nat) (s1 : EnvState)
    (h : changeTargetNode s nodeArg rs fuel = some s1) :
    s1.communityTarget = s.communityTarget ∧
    (nodeArg = none → s1.nodeTarget ∈ s1.communityTarget) ∧
    (∀ n, nodeArg = some n → s1.nodeTarget = n) := by
  rcases nodeArg with _ | n
  · unfold changeTargetNode at h
    rcases hp : pickNewNodeAux s.communityTarget s.nodeTarget rs fuel 0
      with _ | m
    · rw [hp] at h
      cases h
    · rw [hp] at h
      dsimp only at h
      obtain rfl := Option.some.inj h.symm
      refine ⟨rfl, fun _ => ?_, fun n hn => Option.noConfusion hn⟩
      exact pickNewNodeAux_mem s.communityTarget s.nodeTarget rs fuel 0 m hp
  · unfold changeTargetNode at h
    obtain rfl := Option.some.inj h.symm
    refine ⟨rfl, fun h0 => Option.noConfusion h0, fun m hm => ?_⟩
    exact Option.some.inj hm

/-- Counterexample to C8 as stated: supplying an explicit target node
that is outside the supplied community leaves the environment with
`node_target ∉ community_target` — `change_target_node` performs no
membership check on an explicit node. -/
theorem target_invariant_counterexample :
    changeTargetCommunity CommunityChangeMethod.fixed exampleState
        (some [0, 1]) (some 5) (fun i => i) (fun i => i) 3 =
      some { exampleState with
               communityTarget := [0, 1],
               nodeTarget := 5 } ∧
    (5 : Nat) ∉ [0, 1] := by
  constructor
  · decide
  · decide

/-- C8 amended: the invariant `node_target ∈ community_target` holds
after every terminating call in which the node is policy-selected; with
an explicit node argument the node is assigned unchecked, so the
invariant holds exactly when the supplied node belongs to the selected
target community. -/
theorem target_invariant_amended :
    (∀ (s : EnvState) (rs : Nat → Nat) (fuel : Nat) (s1 : EnvState),
      changeTargetNode s none rs fuel = some s1 →
      s1.nodeTarget ∈ s1.communityTarget) ∧
    (∀ (s : EnvState) (n : Nat) (rs : Nat → Nat) (fuel : Nat),
      changeTargetNode s (some n) rs fuel =
        some { s with nodeTarget := n }) ∧
    (∀ (method : CommunityChangeMethod) (s : EnvState)
      (community : Option (List Nat)) (nodeArg : Option Nat)
      (rsC rsN : Nat → Nat) (fuel : Nat) (s1 : EnvState),
      changeTargetCommunity method s community nodeArg rsC rsN fuel =
        some s1 →
      (nodeArg = none ∨ ∃ n, nodeArg = some n ∧ n ∈ s1.communityTarget) →
      s1.nodeTarget ∈ s1.communityTarget) := by
  have key : ∀ (s' : EnvState) (nodeArg : Option Nat) (rsN : Nat → Nat)
      (fuel : Nat) (s1 : EnvState),
      changeTargetNode s' nodeArg rsN fuel = some s1 →
      (nodeArg = none ∨ ∃ n, nodeArg = some n ∧ n ∈ s1.communityTarget) →
      s1.nodeTarget ∈ s1.communityTarget := by
    intro s' nodeArg rsN fuel s1 h' hside
    obtain ⟨hct, hnone, hsome⟩ :=
      changeTargetNode_invariant s' nodeArg rsN fuel s1 h'
    rcases hside with h0 | ⟨n, hn_eq, hn_mem⟩
    · exact hnone h0
    · rw [hsome n hn_eq]
      exact hn_mem
  refine ⟨?_, ?_, ?_⟩
  · intro s rs fuel s1 h
    exact key s none rs fuel s1 h (Or.inl rfl)
  · intro s n rs fuel
    rfl
  · intro method s community nodeArg rsC rsN fuel s1 h hside
    rcases community with _ | c
    · cases method
      case random =>
        unfold changeTargetCommunity at h
        dsimp only at h
        rcases hr : randomCommunity s rsC fuel with _ | s2
        · rw [hr] at h
          cases h
        · rw [hr] at h
          dsimp only at h
          exact key s2 nodeArg rsN fuel s1 h hside
      case fixed =>
        unfold changeTargetCommunity at h
        dsimp only at h
        rcases hf : fixedCommunity s.originalCommunityStructure
            s.preferredCommunitySize with _ | c2
        · rw [hf] at h
          cases h
        · rw [hf] at h
          dsimp only at h
          exact key _ nodeArg rsN fuel s1 h hside
      case distribution =>
        unfold changeTargetCommunity at h
        dsimp only at h
        rcases hd : distributionCommunity s.originalCommunityStructure
            (rsC 0) 10 with _ | c2
        · rw [hd] at h
          cases h
        · rw [hd] at h
          dsimp only at h
          exact key _ nodeArg rsN fuel s1 h hside
    · unfold changeTargetCommunity at h
      dsimp only at h
      exact key _ nodeArg rsN fuel s1 h hside

/-- Witness for the amended C8: an explicit community with a
policy-selected node lands on a member of that community. -/
theorem target_invariant_amended_witness :
    ({ exampleState with communityTarget := [0, 1], nodeTarget := 1 } :
        EnvState).nodeTarget ∈
      ({ exampleState with communityTarget := [0, 1], nodeTarget := 1 } :
        EnvState).communityTarget :=
  target_invariant_amended.2.2 CommunityChangeMethod.fixed exampleState
    (some [0, 1]) none (fun i => i) (fun i => i) 3 _ (by decide)
    (Or.inl rfl)

/-- `min(l, key=...)` returns an element of the list. -/
lemma minByNE_mem {α : Type} (key : α → ℤ) :
    ∀ (x : α) (l : List α), minByNE key x l ∈ x :: l
  | _, [] => by simp [minByNE]
  | x, y :: ys => by
    unfold minByNE
    dsimp only
    split_ifs with h
    · exact List.mem_cons_of_mem x (minByNE_mem key y ys)
    · exact List.mem_cons_self x _

/-- `min(l, key=...)` attains the minimal key. -/
lemma minByNE_le {α : Type} (key : α → ℤ) :
    ∀ (x : α) (l : List α), ∀ z ∈ x :: l,
      key (minByNE key x l) ≤ key z
  | x, [], z, hz => by
    rcases List.mem_singleton.mp hz with rfl
    exact le_refl _
  | x, y :: ys, z, hz => by
    unfold minByNE
    dsimp only
    split_ifs with h
    · rcases List.mem_cons.mp hz with rfl | hz2
      · exact le_of_lt h
      · exact minByNE_le key y ys z hz2
    · rcases List.mem_cons.mp hz with rfl | hz2
      · exact le_refl _
      · exact (not_lt.mp h).trans (minByNE_le key y ys z hz2)

/-- `min(l, key=...)` returns the first element attaining the minimal
key: everything before it in the list has a strictly larger key. -/
lemma minByNE_first {α : Type} (key : α → ℤ) :
    ∀ (x : α) (l : List α), ∃ pre post,
      x :: l = pre ++ minByNE key x l :: post ∧
      ∀ z ∈ pre, key (minByNE key x l) < key z
  | x, [] => ⟨[], [], by simp [minByNE], by simp⟩
  | x, y :: ys => by
    unfold minByNE
    dsimp only
    split_ifs with h
    · obtain ⟨pre, post, heq, hlt⟩ := minByNE_first key y ys
      refine ⟨x :: pre, post, by rw [List.cons_append, ← heq], ?_⟩
      intro z hz
      rcases List.mem_cons.mp hz with rfl | hz2
      · exact h
      · exact hlt z hz2
    · exact ⟨[], y :: ys, rfl, by simp⟩

/-- Looking up a list at the length of a prefix lands on the element
just after that prefix. -/
lemma get?_append_cons_self {α : Type} :
    ∀ (pre : List α) (post : List α) (x : α),
      (pre ++ x :: post).get? pre.length = some x
  | [], _, _ => rfl
  | a :: as, post, x => by
    simpa using get?_append_cons_self as post x

/-- Evaluation of `fixed_community` on the tie example: communities of
sizes 3 and 1, preferred size `ceil(3 * 1/2) = 2`, both sizes at
distance 1 — the community-list order tie-break picks the size-3
community listed first. -/
lemma fixedCommunity_example_eval :
    fixedCommunity [[0, 1, 2], [3]] (1/2) = some [0, 1, 2] := by
  have hm : (([[0, 1, 2], [3]] : CommunityStructure).map
      List.length).foldl Nat.max 0 = 3 := by decide
  have hpre : (⌈((3 : ℕ) : ℚ) * (1/2)⌉ : ℤ) = 2 := by
    rw [Int.ceil_eq_iff]
    constructor
    · norm_num
    · norm_num
  unfold fixedCommunity
  dsimp only
  rw [hm, hpre]
  decide

/-- Evaluation of the spec-modelled size-sorted variant on the same
example: in the size-sorted order the size-1 community comes first among
the tied candidates. -/
lemma fixedCommunitySizeSorted_example_eval :
    fixedCommunitySizeSorted [[0, 1, 2], [3]] (1/2) = some [3] := by
  have hm : (([[0, 1, 2], [3]] : CommunityStructure).map
      List.length).foldl Nat.max 0 = 3 := by decide
  have hpre : (⌈((3 : ℕ) : ℚ) * (1/2)⌉ : ℤ) = 2 := by
    rw [Int.ceil_eq_iff]
    constructor
    · norm_num
    · norm_num
  unfold fixedCommunitySizeSorted
  dsimp only
  rw [hm, hpre]
  decide

/-- Counterexample to C9 as stated: with communities `[[0,1,2],[3]]` and
preferred fraction 1/2, the preferred size is 2 and both communities are
equally close; the first tied community in the size-sorted order is
`[3]`, but the code picks `[0,1,2]`, the first tied community in the
original community-list order. -/
theorem fixedCommunity_counterexample :
    fixedCommunity [[0, 1, 2], [3]] (1/2) = some [0, 1, 2] ∧
    fixedCommunitySizeSorted [[0, 1, 2], [3]] (1/2) = some [3] ∧
    ([0, 1, 2] : List Nat) ≠ [3] :=
  ⟨fixedCommunity_example_eval, fixedCommunitySizeSorted_example_eval,
    by decide⟩

/-- C9 amended: `fixed_community` picks a community whose size is
closest to `ceil(preferred_community_size * max community size)`, and
among equally close communities the first one in the order the
communities are listed in the original structure (not the size-sorted
order). -/
theorem fixedCommunity_first_closest (comms : CommunityStructure)
    (pcs : ℚ) (c : List Nat) (h : fixedCommunity comms pcs = some c) :
    c ∈ comms ∧
    (∀ c2 ∈ comms,
      |(c.length : ℤ) - preferredSize comms pcs| ≤
        |(c2.length : ℤ) - preferredSize comms pcs|) ∧
    ∃ pre post, comms = pre ++ c :: post ∧
      ∀ c2 ∈ pre,
        |(c.length : ℤ) - preferredSize comms pcs| <
          |(c2.length : ℤ) - preferredSize comms pcs| := by
  rcases comms with _ | ⟨c0, rest⟩
  · cases h
  · have h' : fixedCommunity (c0 :: rest) pcs =
        (c0 :: rest).get?
          (((c0 :: rest).map List.length).indexOf
            (minByNE
              (fun n : ℕ => |(n : ℤ) - preferredSize (c0 :: rest) pcs|)
              c0.length (rest.map List.length))) := rfl
    rw [h'] at h
    obtain ⟨preV, postV, hsplit, hltV⟩ :=
      minByNE_first
        (fun n : ℕ => |(n : ℤ) - preferredSize (c0 :: rest) pcs|)
        c0.length (rest.map List.length)
    set cl := minByNE
      (fun n : ℕ => |(n : ℤ) - preferredSize (c0 :: rest) pcs|)
      c0.length (rest.map List.length) with hcl
    have hmapAll : (c0 :: rest).map List.length =
        c0.length :: rest.map List.length := rfl
    have hsplitAll : (c0 :: rest).map List.length =
        preV ++ cl :: postV := by
      rw [hmapAll, hsplit]
    have hnotmem : cl ∉ preV := by
      intro hmem
      exact absurd (hltV cl hmem) (lt_irrefl _)
    have hidx : ((c0 :: rest).map List.length).indexOf cl =
        preV.length := by
      rw [hsplitAll, List.indexOf_append_of_not_mem hnotmem,
        List.indexOf_cons_self, Nat.add_zero]
    rw [hidx] at h
    obtain ⟨preC, rest2, hcomms, hmapPre, hmapRest2⟩ :=
      List.append_eq_map_iff.mp hsplitAll.symm
    rcases rest2 with _ | ⟨cMid, postC⟩
    · cases hmapRest2
    · simp only [List.map_cons, List.cons.injEq] at hmapRest2
      obtain ⟨hclen, hmapPost⟩ := hmapRest2
      have hlenPre : preC.length = preV.length := by
        rw [← hmapPre, List.length_map]
      have hget : (c0 :: rest).get? preV.length = some cMid := by
        rw [hcomms, ← hlenPre]
        exact get?_append_cons_self preC postC cMid
      rw [hget] at h
      obtain rfl := Option.some.inj h
      refine ⟨?_, ?_, ?_⟩
      · rw [hcomms]
        exact List.mem_append.mpr (Or.inr (List.mem_cons_self _ _))
      · intro c2 hc2
        have hmem : c2.length ∈ c0.length :: rest.map List.length := by
          rw [← hmapAll]
          exact List.mem_map_of_mem List.length hc2
        have hle := minByNE_le
          (fun n : ℕ => |(n : ℤ) - preferredSize (c0 :: rest) pcs|)
          c0.length (rest.map List.length) c2.length hmem
        rw [hclen]
        exact hle
      · refine ⟨preC, postC, hcomms, ?_⟩
        intro c2 hc2
        have hmem : c2.length ∈ preV := by
          rw [← hmapPre]
          exact List.mem_map_of_mem List.length hc2
        have hlt := hltV c2.length hmem
        rw [hclen]
        exact hlt

/-- Witness for the amended C9 at the tie example: the picked community
`[0,1,2]` is in the list, is a closest-size community, and everything
listed before it (nothing) is strictly farther. -/
theorem fixedCommunity_first_closest_witness :
    ([0, 1, 2] : List Nat) ∈ ([[0, 1, 2], [3]] : CommunityStructure) ∧
    (∀ c2 ∈ ([[0, 1, 2], [3]] : CommunityStructure),
      |(([0, 1, 2] : List Nat).length : ℤ) -
          preferredSize [[0, 1, 2], [3]] (1/2)| ≤
        |(c2.length : ℤ) - preferredSize [[0, 1, 2], [3]] (1/2)|) ∧
    ∃ pre post, ([[0, 1, 2], [3]] : CommunityStructure) =
        pre ++ [0, 1, 2] :: post ∧
      ∀ c2 ∈ pre,
        |(([0, 1, 2] : List Nat).length : ℤ) -
            preferredSize [[0, 1, 2], [3]] (1/2)| <
          |(c2.length : ℤ) - preferredSize [[0, 1, 2], [3]] (1/2)| :=
  fixedCommunity_first_closest [[0, 1, 2], [3]] (1/2) [0, 1, 2]
    fixedCommunity_example_eval

end GraphEnv
